import Mathlib

/-!
Verification development for the drivel CLI (src/main.rs) and the core
engine it drives.  The CLI source is embedded directly; the drivel library
functions it calls (inference, enum detection, production, schema-document
bridge) are not part of the source tree, so they are modelled from the
specification where a claim depends on them, each such definition marked
`Modelled from the spec:` in its doc comment.
-/

set_option maxHeartbeats 1000000

/-- Structured values (serde_json::Value).  Numbers keep the integer /
non-integer distinction that serde_json's Number carries. -/
inductive JsonValue where
  | null
  | bool (b : Bool)
  | int (n : Int)
  | num (q : Rat)
  | str (s : String)
  | arr (xs : List JsonValue)
  | obj (kvs : List (String × JsonValue))

/-- The Produce / Describe subcommand of the CLI (enum Mode in main.rs). -/
inductive Mode where
  | describe (json_schema : Bool)
  | produce (n_repeat : Option Nat)
deriving DecidableEq, Repr

/-- Parsed command-line arguments (struct Args in main.rs).  The f64 option
value enum_max_uniq is represented as a rational: the CLI performs no
arithmetic on it, only copies it, so the representation is faithful. -/
structure Args where
  mode : Mode
  from_schema : Bool
  infer_enum : Bool
  enum_max_uniq : Option Rat
  enum_min_n : Option Nat
deriving DecidableEq, Repr

/-- Enum-inference options (drivel::EnumInference): plain record with the
two public fields that main.rs fills in by struct literal. -/
structure EnumInference where
  max_unique_ratio : Rat
  min_sample_size : Nat
deriving DecidableEq, Repr

/-- The From impl at src/main.rs lines 49-62: when the infer_enum flag is
set, builds EnumInference from enum_max_uniq (default 0.1) and enum_min_n
(default 1) by plain struct construction, with no validation of either
field; otherwise yields none. -/
def enumInferenceFromArgs (value : Args) : Option EnumInference :=
  if value.infer_enum then
    let max_unique_ratio := value.enum_max_uniq.getD (1/10)
    let min_sample_size := value.enum_min_n.getD 1
    some { max_unique_ratio := max_unique_ratio, min_sample_size := min_sample_size }
  else
    none

/-- The generalized-type tree (drivel::SchemaState).  Constructors follow
the spec's data model; the Array variant's fields (min_length, max_length,
schema) are exactly those main.rs constructs and matches on.  The nullable
flag of the spec is the wrapper constructor. -/
inductive SchemaState where
  | null
  | boolean
  | integer (min max : Int)
  | float (min max : Rat)
  | string (min_length max_length : Nat)
  | enum (values : List String) (min_length max_length : Nat)
  | array (min_length : Nat) (max_length : Nat) (schema : SchemaState)
  | object (fields : List (String × SchemaState × Bool))
  | nullable (inner : SchemaState)
  | indeterminate

/-- Whether a schema is the Array variant (the pattern SchemaState::Array
left brace .. right brace that the Produce arm matches on). -/
def SchemaState.isArray : SchemaState → Bool
  | .array _ _ _ => true
  | _ => false

/-- The schema adjustment in the Mode::Produce arm of main (src/main.rs
lines 134-150): an Array root is passed through; a non-Array root is
wrapped in Array with min_length 1 and max_length 1 when n_repeat > 1,
and passed through otherwise. -/
def wrapForProduce (schema : SchemaState) (n_repeat : Nat) : SchemaState :=
  match schema with
  | .array a b s => .array a b s
  | other =>
    if n_repeat > 1 then
      .array 1 1 other
    else
      other

/-- The n_repeat value the Produce arm hands to drivel::produce
(src/main.rs line 133): the command-line value when given, else 1. -/
def nRepeatArg (n_repeat : Option Nat) : Nat :=
  n_repeat.getD 1

/-- The function parse_json_or_yaml (src/main.rs lines 64-75), parametric
in the two external parsers (serde_json::from_str and serde_yaml2) and in
the node-to-value conversion, which are library collaborators outside the
repository: JSON is tried first; on JSON failure YAML is tried, its node
converted to a value; when both parsers fail the error message interpolates
both errors. -/
def parseJsonOrYaml {Node : Type}
    (jsonParse : String → Except String JsonValue)
    (yamlParse : String → Except String Node)
    (toValue : Node → Except String JsonValue)
    (s : String) : Except String JsonValue :=
  match jsonParse s with
  | .ok v => .ok v
  | .error json_err =>
    match yamlParse s with
    | .ok node => toValue node
    | .error yaml_err =>
      .error ("JSON error: " ++ json_err ++ ". YAML error: " ++ yaml_err)

/-- The validity condition the spec's InvalidOptions error kind describes:
max_unique_ratio within zero and one, min_sample_size nonzero. -/
def validEnumOptions (e : EnumInference) : Prop :=
  0 ≤ e.max_unique_ratio ∧ e.max_unique_ratio ≤ 1 ∧ e.min_sample_size ≠ 0

instance (e : EnumInference) : Decidable (validEnumOptions e) := by
  unfold validEnumOptions
  infer_instance

/-- The pair (adjusted schema, n_repeat) that the Mode::Produce arm of main
(src/main.rs lines 132-152) hands to drivel::produce. -/
def produceCall (schema : SchemaState) (n_repeat : Option Nat) : SchemaState × Nat :=
  let n := nRepeatArg n_repeat
  (wrapForProduce schema n, n)

/-- Shortest length among a list of sample strings (0 for no samples). -/
def minLenOf (samples : List String) : Nat :=
  match samples.map (fun s => s.length) with
  | [] => 0
  | x :: xs => xs.foldl Nat.min x

/-- Longest length among a list of sample strings (0 for no samples). -/
def maxLenOf (samples : List String) : Nat :=
  match samples.map (fun s => s.length) with
  | [] => 0
  | x :: xs => xs.foldl Nat.max x

/-- Modelled from the spec: the Enum Detector's classification of one
string-typed position (drivel library, not in the source tree).  With enum
inference disabled the position stays an open String; enabled, it becomes
Enum of the distinct observed values iff the sample count reaches
min_sample_size and the distinct/total ratio is at most max_unique_ratio. -/
def classifyStringPosition (opts : Option EnumInference) (samples : List String) :
    SchemaState :=
  match opts with
  | none => .string (minLenOf samples) (maxLenOf samples)
  | some e =>
    let distinct := samples.dedup
    if e.min_sample_size ≤ samples.length ∧
        (distinct.length : Rat) / (samples.length : Rat) ≤ e.max_unique_ratio then
      .enum distinct (minLenOf samples) (maxLenOf samples)
    else
      .string (minLenOf samples) (maxLenOf samples)

/-- First value stored under a key in a JSON object's entry list. -/
def lookupKey (kvs : List (String × JsonValue)) (k : String) : Option JsonValue :=
  (kvs.find? (fun p => p.1 == k)).map (fun p => p.2)

/-- A value found by lookupKey is structurally smaller than the entry list;
this supports termination of the recursive schema-document import. -/
theorem lookupKey_sizeOf {kvs : List (String × JsonValue)} {k : String} {v : JsonValue}
    (h : lookupKey kvs k = some v) : sizeOf v < sizeOf kvs := by
  induction kvs with
  | nil => simp [lookupKey] at h
  | cons a l ih =>
    unfold lookupKey at h
    rw [List.find?] at h
    by_cases hk : a.1 == k
    · simp [hk] at h
      subst h
      cases a
      simp
      omega
    · simp [hk] at h
      have := ih (by simpa [lookupKey] using h)
      simp
      omega

/-- Names of an object schema's required fields, in field order. -/
def requiredNames (fields : List (String × SchemaState × Bool)) : List String :=
  (fields.filter (fun f => f.2.2)).map (fun f => f.1)

mutual

/-- Modelled from the spec: the per-variant content of the exported schema
document (drivel's ToJsonSchema, not in the source tree) — the declared
type name and the keyword entries for each single-typed variant.  Nullable
and Indeterminate have no single declared type and are handled by
toJsonSchemaDocument itself. -/
def exportParts : SchemaState → Option (String × List (String × JsonValue))
  | .null => some ("null", [])
  | .boolean => some ("boolean", [])
  | .integer lo hi => some ("integer", [("minimum", .int lo), ("maximum", .int hi)])
  | .float lo hi => some ("number", [("minimum", .num lo), ("maximum", .num hi)])
  | .string lo hi =>
    some ("string", [("minLength", .int lo), ("maxLength", .int hi)])
  | .enum vs lo hi =>
    some ("string", [("minLength", .int lo), ("maxLength", .int hi),
      ("enum", .arr (vs.map .str))])
  | .array lo hi sch =>
    some ("array", [("items", toJsonSchemaDocument sch),
      ("minItems", .int lo), ("maxItems", .int hi)])
  | .object fields =>
    some ("object", [("properties", .obj (exportProps fields)),
      ("required", .arr ((requiredNames fields).map .str))])
  | .nullable _ => none
  | .indeterminate => none
termination_by s => (sizeOf s, 0)

/-- Modelled from the spec: export of a Schema Model to a schema document
(schema.to_json_schema_document in main.rs; drivel's ToJsonSchema impl is
not in the source tree).  A single-typed variant becomes an object with its
type keyword and per-variant entries; a nullable node declares the union of
its inner type with null; Indeterminate exports as the unconstrained
document. -/
def toJsonSchemaDocument (s : SchemaState) : JsonValue :=
  match s with
  | .nullable inner =>
    match exportParts inner with
    | some (t, rest) => .obj (("type", .arr [.str t, .str "null"]) :: rest)
    | none => .obj []
  | other =>
    match exportParts other with
    | some (t, rest) => .obj (("type", .str t) :: rest)
    | none => .obj []
termination_by (sizeOf s, 1)

/-- Exported property list of an object schema: each field name mapped to
its exported schema document, in field order. -/
def exportProps : List (String × SchemaState × Bool) → List (String × JsonValue)
  | [] => []
  | f :: rest => (f.1, toJsonSchemaDocument f.2.1) :: exportProps rest
termination_by fields => (sizeOf fields, 1)
decreasing_by
  all_goals apply Prod.Lex.left
  all_goals rcases f with ⟨n, sch, b⟩
  all_goals simp
  all_goals omega

end

/-- Reads a JSON array of strings into the string list it denotes,
rejecting non-string entries. -/
def parseStringList : List JsonValue → Option (List String)
  | [] => some []
  | .str s :: rest => (parseStringList rest).map (fun l => s :: l)
  | _ => none

mutual

/-- Modelled from the spec: import of a schema document into a Schema
Model (drivel::parse_json_schema, called at src/main.rs line 97 but not in
the source tree).  The one fallible core operation: a document that is not
an object, declares an unsupported type, omits the keys needed to
reconstruct bounds or fields, or carries self-contradictory bounds yields a
descriptive error value; an object with no type keyword is the
unconstrained document and imports as Indeterminate; a two-element type
union with null imports the base type wrapped as nullable. -/
def parse_json_schema : JsonValue → Except String SchemaState
  | .obj kvs =>
    match lookupKey kvs "type" with
    | none => .ok .indeterminate
    | some (.str t) => parseWithType t kvs
    | some (.arr [.str t, .str "null"]) =>
      (parseWithType t kvs).map SchemaState.nullable
    | some _ => .error "unsupported type keyword"
  | _ => .error "schema document must be an object"
termination_by j => (sizeOf j, 0)

/-- Import of an object document with a declared type name: for each
supported type the bounds or fields are reconstructed from the required
keys, with descriptive errors for missing keys, contradictory bounds, an
empty enum, or an unknown type name. -/
def parseWithType (t : String) (kvs : List (String × JsonValue)) :
    Except String SchemaState :=
  if t = "null" then .ok .null
  else if t = "boolean" then .ok .boolean
  else if t = "integer" then
    match lookupKey kvs "minimum", lookupKey kvs "maximum" with
    | some (.int lo), some (.int hi) =>
      if lo ≤ hi then .ok (.integer lo hi)
      else .error "contradictory bounds: minimum exceeds maximum"
    | _, _ => .error "integer type requires integer minimum and maximum"
  else if t = "number" then
    match lookupKey kvs "minimum", lookupKey kvs "maximum" with
    | some (.num lo), some (.num hi) =>
      if lo ≤ hi then .ok (.float lo hi)
      else .error "contradictory bounds: minimum exceeds maximum"
    | _, _ => .error "number type requires numeric minimum and maximum"
  else if t = "string" then
    match lookupKey kvs "minLength", lookupKey kvs "maxLength" with
    | some (.int lo), some (.int hi) =>
      if 0 ≤ lo ∧ lo ≤ hi then
        match lookupKey kvs "enum" with
        | none => .ok (.string lo.toNat hi.toNat)
        | some (.arr vs) =>
          match parseStringList vs with
          | some values =>
            if values.isEmpty then .error "enum must list at least one value"
            else .ok (.enum values lo.toNat hi.toNat)
          | none => .error "enum values must all be strings"
        | some _ => .error "enum must be an array"
      else .error "contradictory bounds: minLength exceeds maxLength"
    | _, _ => .error "string type requires minLength and maxLength"
  else if t = "array" then
    match h : lookupKey kvs "items", lookupKey kvs "minItems",
        lookupKey kvs "maxItems" with
    | some itemsDoc, some (.int lo), some (.int hi) =>
      if 0 ≤ lo ∧ lo ≤ hi then
        match parse_json_schema itemsDoc with
        | .ok elem => .ok (.array lo.toNat hi.toNat elem)
        | .error e => .error e
      else .error "contradictory bounds: minItems exceeds maxItems"
    | _, _, _ => .error "array type requires items, minItems and maxItems"
  else if t = "object" then
    match h : lookupKey kvs "properties", lookupKey kvs "required" with
    | some (.obj props), some (.arr reqs) =>
      match parseStringList reqs with
      | some reqNames => (parseFields props reqNames).map SchemaState.object
      | none => .error "required entries must all be strings"
    | _, _ => .error "object type requires properties and required"
  else .error ("unsupported type: " ++ t)
termination_by (sizeOf kvs, 1)
decreasing_by
  all_goals simp_wf
  · apply Prod.Lex.left
    have := lookupKey_sizeOf h
    omega
  · apply Prod.Lex.left
    have := lookupKey_sizeOf h
    simp at this
    omega

/-- Imports each property's schema document in order; a field is required
iff its name appears in the document's required list. -/
def parseFields (props : List (String × JsonValue)) (reqNames : List String) :
    Except String (List (String × SchemaState × Bool)) :=
  match props with
  | [] => .ok []
  | (name, v) :: rest =>
    match parse_json_schema v with
    | .ok s =>
      (parseFields rest reqNames).map (fun tail => (name, s, reqNames.contains name) :: tail)
    | .error e => .error e
termination_by (sizeOf props, 0)

end

mutual

/-- Modelled from the spec: the structural invariants of a Schema Model —
every bound pair ordered, every enum non-empty, object field names
distinct, and a nullable wrapper applied only to a node that is neither
nullable itself nor Indeterminate. -/
def SchemaState.wf : SchemaState → Bool
  | .null => true
  | .boolean => true
  | .integer lo hi => decide (lo ≤ hi)
  | .float lo hi => decide (lo ≤ hi)
  | .string lo hi => decide (lo ≤ hi)
  | .enum vs lo hi => !vs.isEmpty && decide (lo ≤ hi)
  | .array lo hi sch => decide (lo ≤ hi) && sch.wf
  | .object fields => decide ((fields.map (fun f => f.1)).Nodup) && wfFields fields
  | .nullable inner =>
    (match inner with
     | .nullable _ => false
     | .indeterminate => false
     | _ => true) && inner.wf
  | .indeterminate => true

/-- Well-formedness of every field schema of an object. -/
def wfFields : List (String × SchemaState × Bool) → Bool
  | [] => true
  | f :: rest => f.2.1.wf && wfFields rest

end

/-- Left branch of the deterministic draw-stream splitter used to model
the Production Engine's randomness source. -/
def gLeft (g : Nat → Nat) : Nat → Nat :=
  fun k => g (2 * k + 1)

/-- Right branch of the deterministic draw-stream splitter. -/
def gRight (g : Nat → Nat) : Nat → Nat :=
  fun k => g (2 * k + 2)

/-- The implementation-defined printable character set strings are filled
from; only the length bound is contractual. -/
def printableChars : List Char :=
  "abcdefghijklmnopqrstuvwxyz0123456789".toList

/-- A string of exactly the requested length, each character drawn from the
printable set by the raw draw stream. -/
def randomString (len : Nat) (g : Nat → Nat) : String :=
  String.mk ((List.range len).map (fun i => printableChars.getD (g i % printableChars.length) 'a'))

mutual

/-- Modelled from the spec: single-value synthesis produce_one of the
Production Engine (drivel library, not in the source tree), with the
randomness source made explicit as a stream g of raw draws.  Integer and
Float draw within the bounds, String draws a length within the bounds,
Enum picks one of the observed values, Array draws a length within bounds
and produces each element from the element schema, Object includes every
field, a nullable node may emit null instead, and Indeterminate yields
null. -/
def produceOne (s : SchemaState) (g : Nat → Nat) : JsonValue :=
  match s with
  | .null => .null
  | .boolean => .bool (g 0 % 2 == 0)
  | .integer lo hi => .int (lo + ((g 0 % ((hi - lo).toNat + 1) : Nat) : Int))
  | .float lo hi => .num (lo + (hi - lo) * ((g 0 % 1001 : Nat) : Rat) / 1000)
  | .string lo hi => .str (randomString (lo + g 0 % (hi - lo + 1)) (gLeft g))
  | .enum vs _ _ => .str (vs.getD (g 0 % vs.length) "")
  | .array lo hi sch => .arr (produceList sch (lo + g 0 % (hi - lo + 1)) (gLeft g))
  | .object fields => .obj (produceFields fields g)
  | .nullable inner => if g 0 % 2 == 0 then .null else produceOne inner (gLeft g)
  | .indeterminate => .null
termination_by (sizeOf s, 0)

/-- Produces the requested number of array elements, each independently
from the element schema. -/
def produceList (sch : SchemaState) (n : Nat) (g : Nat → Nat) : List JsonValue :=
  match n with
  | 0 => []
  | m + 1 => produceOne sch (gLeft g) :: produceList sch m (gRight g)
termination_by (sizeOf sch, n + 1)

/-- Produces every field of an object schema, each value independently
from the field's schema. -/
def produceFields (fields : List (String × SchemaState × Bool)) (g : Nat → Nat) :
    List (String × JsonValue) :=
  match fields with
  | [] => []
  | f :: rest => (f.1, produceOne f.2.1 (gLeft g)) :: produceFields rest (gRight g)
termination_by (sizeOf fields, 0)
decreasing_by
  all_goals apply Prod.Lex.left
  all_goals rcases f with ⟨n, sch, b⟩
  all_goals simp
  all_goals omega

end

mutual

/-- The conformance check of the spec's testable property: a value
conforms to a schema when its shape matches the schema's variant, numeric
values lie within the bounds, string lengths lie within the length bounds,
enum values are members of the observed set, array lengths lie within the
length bounds with every element conforming to the element schema, every
object field conforms to its field schema, a nullable position accepts
null or a conforming value, and Indeterminate accepts anything. -/
def conformsB (v : JsonValue) (s : SchemaState) : Bool :=
  match s, v with
  | .null, .null => true
  | .null, _ => false
  | .boolean, .bool _ => true
  | .boolean, _ => false
  | .integer lo hi, .int n => decide (lo ≤ n ∧ n ≤ hi)
  | .integer _ _, _ => false
  | .float lo hi, .num q => decide (lo ≤ q ∧ q ≤ hi)
  | .float _ _, _ => false
  | .string lo hi, .str str => decide (lo ≤ str.length ∧ str.length ≤ hi)
  | .string _ _, _ => false
  | .enum vs _ _, .str str => vs.contains str
  | .enum _ _ _, _ => false
  | .array lo hi sch, .arr xs =>
    decide (lo ≤ xs.length ∧ xs.length ≤ hi) && conformsList xs sch
  | .array _ _ _, _ => false
  | .object fields, .obj kvs => conformsFields kvs fields
  | .object _, _ => false
  | .nullable _, .null => true
  | .nullable inner, v => conformsB v inner
  | .indeterminate, _ => true
termination_by sizeOf v + sizeOf s

/-- Every element of a list conforms to the element schema. -/
def conformsList (xs : List JsonValue) (sch : SchemaState) : Bool :=
  match xs with
  | [] => true
  | x :: rest => conformsB x sch && conformsList rest sch
termination_by sizeOf xs + sizeOf sch

/-- An object value has exactly the schema's fields in order, each value
conforming to its field schema. -/
def conformsFields (kvs : List (String × JsonValue))
    (fields : List (String × SchemaState × Bool)) : Bool :=
  match kvs, fields with
  | [], [] => true
  | (k, v) :: kvsRest, (n, sch, _) :: fieldsRest =>
    k == n && conformsB v sch && conformsFields kvsRest fieldsRest
  | _, _ => false
termination_by sizeOf kvs + sizeOf fields

end

/-- Parses every line individually, left to right, stopping at the first
failure (the CLI exits the process there, modelled as the error case). -/
def parseAllLines (p : String → Except String JsonValue) :
    List String → Except String (List JsonValue)
  | [] => .ok []
  | l :: rest =>
    match p l with
    | .ok v => (parseAllLines p rest).map (fun vs => v :: vs)
    | .error e => .error e

/-- The schema-acquisition phase of main (src/main.rs lines 87-129),
parametric in the external text parsers and in the inference engine
entry points (drivel::infer_schema and drivel::infer_schema_from_iter) and
line splitter, which live outside the source tree.  An error value models
eprintln followed by process exit 1, carrying the message printed.  With
from_schema, the input is parsed as one document and imported through
parse_json_schema; otherwise the input is inferred from the single parsed
document when it parses, and only on failure is it split into lines, each
parsed individually and folded through the iterator entry point. -/
def cliLoadSchema {Node : Type}
    (jsonParse : String → Except String JsonValue)
    (yamlParse : String → Except String Node)
    (toValue : Node → Except String JsonValue)
    (inferOne : JsonValue → SchemaState)
    (inferIter : List JsonValue → SchemaState)
    (linesOf : String → List String)
    (from_schema : Bool) (input : String) : Except String SchemaState :=
  if from_schema then
    match parseJsonOrYaml jsonParse yamlParse toValue input with
    | .error err => .error ("Error parsing input as JSON or YAML Schema: " ++ err)
    | .ok json =>
      match parse_json_schema json with
      | .ok schema => .ok schema
      | .error err => .error ("Error parsing JSON Schema: " ++ err)
  else
    match parseJsonOrYaml jsonParse yamlParse toValue input with
    | .ok json => .ok (inferOne json)
    | .error _ =>
      match parseAllLines (parseJsonOrYaml jsonParse yamlParse toValue) (linesOf input) with
      | .ok values => .ok (inferIter values)
      | .error err =>
        .error ("Error parsing input; are you sure it is valid JSON or YAML? Error: " ++ err)

/-- C2: the inference options hand enum_inference = none exactly when the
infer_enum flag is absent; with the flag, the ratio is the given value or
0.1 and the sample size the given value or 1. -/
theorem enum_inference_from_args_spec (args : Args) :
    (enumInferenceFromArgs args = none ↔ args.infer_enum = false) ∧
    (args.infer_enum = true →
      enumInferenceFromArgs args =
        some { max_unique_ratio := args.enum_max_uniq.getD (1/10),
               min_sample_size := args.enum_min_n.getD 1 }) := by
  unfold enumInferenceFromArgs
  cases h : args.infer_enum <;> simp [h]

/-- Witness for enum_inference_from_args_spec at a concrete argument set. -/
theorem enum_inference_from_args_spec_witness :
    enumInferenceFromArgs
      { mode := .produce none, from_schema := false, infer_enum := true,
        enum_max_uniq := some (3/10), enum_min_n := none } =
      some { max_unique_ratio := 3/10, min_sample_size := 1 } := by
  have h := enum_inference_from_args_spec
    { mode := .produce none, from_schema := false, infer_enum := true,
      enum_max_uniq := some (3/10), enum_min_n := none }
  simpa using h.2 rfl

/-- C1 counterexample: with enum_max_uniq = 2 and enum_min_n = 0 the From
impl constructs and returns the options value anyway — invalid options are
not rejected at construction. -/
theorem enum_options_not_rejected :
    enumInferenceFromArgs
      { mode := .produce none, from_schema := false, infer_enum := true,
        enum_max_uniq := some 2, enum_min_n := some 0 } =
      some { max_unique_ratio := 2, min_sample_size := 0 } ∧
    ¬ validEnumOptions { max_unique_ratio := 2, min_sample_size := 0 } := by
  constructor
  · rfl
  · decide

/-- C1 (amended): the From impl performs no validation at all — every
options value it constructs carries exactly the provided (or default)
max_unique_ratio and min_sample_size, so out-of-range values are neither
rejected nor clamped. -/
theorem enum_options_passed_through (args : Args) (e : EnumInference)
    (h : enumInferenceFromArgs args = some e) :
    e.max_unique_ratio = args.enum_max_uniq.getD (1/10) ∧
    e.min_sample_size = args.enum_min_n.getD 1 := by
  unfold enumInferenceFromArgs at h
  by_cases hflag : args.infer_enum
  · simp [hflag] at h
    subst h
    refine ⟨?_, rfl⟩
    norm_num
  · simp [hflag] at h

/-- Witness for enum_options_passed_through at a concrete argument set with
an out-of-range ratio. -/
theorem enum_options_passed_through_witness :
    ((5 : Rat) = Option.getD (some 5) (1/10)) ∧ ((0 : Nat) = Option.getD (some 0) 1) :=
  enum_options_passed_through
    { mode := .produce none, from_schema := false, infer_enum := true,
      enum_max_uniq := some 5, enum_min_n := some 0 }
    { max_unique_ratio := 5, min_sample_size := 0 }
    (by rfl)

/-- C3: the Produce arm wraps a non-Array root in Array with both length
bounds 1 exactly when n_repeat exceeds 1, and passes an Array root or a
schema with n_repeat = 1 through unchanged. -/
theorem produce_wrap_spec (schema : SchemaState) (n : Nat) :
    (1 < n → schema.isArray = false → wrapForProduce schema n = .array 1 1 schema) ∧
    (n = 1 → wrapForProduce schema n = schema) ∧
    (schema.isArray = true → wrapForProduce schema n = schema) := by
  refine ⟨?_, ?_, ?_⟩
  · intro hn harr
    cases schema <;> simp_all [wrapForProduce, SchemaState.isArray]
  · intro hn
    subst hn
    cases schema <;> simp [wrapForProduce]
  · intro harr
    cases schema <;> simp_all [wrapForProduce, SchemaState.isArray]

/-- Witness for produce_wrap_spec: a concrete string root with n_repeat = 3
gets wrapped. -/
theorem produce_wrap_spec_witness :
    wrapForProduce (.string 0 5) 3 = .array 1 1 (.string 0 5) :=
  (produce_wrap_spec (.string 0 5) 3).1 (by decide) (by rfl)

/-- C8: the n_repeat handed to drivel::produce is the command-line value
exactly when provided and 1 when absent; an explicit 0 is passed through
with no lower-bound check, below the documented n_repeat >= 1 contract. -/
theorem n_repeat_passed_through (schema : SchemaState) (n : Nat) :
    (produceCall schema (some n)).2 = n ∧
    (produceCall schema none).2 = 1 ∧
    (produceCall schema (some 0)).2 = 0 ∧
    (produceCall schema (some 0)).2 < 1 := by
  exact ⟨rfl, rfl, rfl, Nat.zero_lt_one⟩

/-- C9: parse_json_or_yaml returns the JSON result whenever JSON parsing
succeeds, independent of the YAML parser; the YAML parser is consulted
exactly when JSON parsing fails; and when both fail the error message
contains both parser errors. -/
theorem parse_json_or_yaml_spec {Node : Type}
    (jsonParse : String → Except String JsonValue)
    (yamlParse : String → Except String Node)
    (toValue : Node → Except String JsonValue)
    (s : String) :
    (∀ v, jsonParse s = .ok v →
      parseJsonOrYaml jsonParse yamlParse toValue s = .ok v) ∧
    (∀ je, jsonParse s = .error je →
      parseJsonOrYaml jsonParse yamlParse toValue s =
        (match yamlParse s with
         | .ok node => toValue node
         | .error yaml_err =>
           .error ("JSON error: " ++ je ++ ". YAML error: " ++ yaml_err))) ∧
    (∀ je ye, jsonParse s = .error je → yamlParse s = .error ye →
      ∃ pre mid, parseJsonOrYaml jsonParse yamlParse toValue s =
        .error (pre ++ je ++ mid ++ ye)) := by
  refine ⟨?_, ?_, ?_⟩
  · intro v hv
    simp [parseJsonOrYaml, hv]
  · intro je hje
    simp [parseJsonOrYaml, hje]
  · intro je ye hje hye
    refine ⟨"JSON error: ", ". YAML error: ", ?_⟩
    simp [parseJsonOrYaml, hje, hye]

/-- Witness for parse_json_or_yaml_spec with concrete parsers: JSON
succeeding short-circuits, and a double failure interpolates both errors. -/
theorem parse_json_or_yaml_spec_witness :
    (parseJsonOrYaml (fun _ => .ok (.int 7)) (fun _ => .error "y")
      (fun (n : JsonValue) => .ok n) "in" = .ok (.int 7)) ∧
    (∃ pre mid, parseJsonOrYaml (fun _ => .error "j") (fun _ => .error "y")
      (fun (n : JsonValue) => .ok n) "in" = .error (pre ++ "j" ++ mid ++ "y")) := by
  constructor
  · exact (parse_json_or_yaml_spec (fun _ => .ok (.int 7)) (fun _ => .error "y")
      (fun (n : JsonValue) => .ok n) "in").1 (.int 7) rfl
  · exact (parse_json_or_yaml_spec (fun _ => .error "j") (fun _ => .error "y")
      (fun (n : JsonValue) => .ok n) "in").2.2 "j" "y" rfl rfl

/-- C5: with enum inference enabled and parameters in range, a string
position classifies as Enum of the distinct observed values exactly when
the sample count reaches min_sample_size and the distinct/total ratio is at
most max_unique_ratio, and otherwise stays an open String; in particular
ten samples with two distinct values stay String and ten samples of one
value become the Enum of that value. -/
theorem enum_detector_classification (ratio : Rat) (minn : Nat) (samples : List String)
    (h0 : 0 ≤ ratio) (h1 : ratio ≤ 1) (h2 : 1 ≤ minn) :
    (classifyStringPosition (some ⟨ratio, minn⟩) samples =
        .enum samples.dedup (minLenOf samples) (maxLenOf samples) ↔
      (minn ≤ samples.length ∧
        (samples.dedup.length : Rat) / (samples.length : Rat) ≤ ratio)) ∧
    (¬ (minn ≤ samples.length ∧
        (samples.dedup.length : Rat) / (samples.length : Rat) ≤ ratio) →
      classifyStringPosition (some ⟨ratio, minn⟩) samples =
        .string (minLenOf samples) (maxLenOf samples)) ∧
    classifyStringPosition (some ⟨1/10, 1⟩)
      (List.replicate 5 "a" ++ List.replicate 5 "b") = .string 1 1 ∧
    classifyStringPosition (some ⟨1/10, 1⟩) (List.replicate 10 "a") = .enum ["a"] 1 1 := by
  refine ⟨?_, ?_, ?_, ?_⟩
  · by_cases hc : minn ≤ samples.length ∧
        ((samples.dedup.length : Rat) / (samples.length : Rat) ≤ ratio)
    · simp [classifyStringPosition, hc]
    · simp [classifyStringPosition, hc]
  · intro hc
    simp [classifyStringPosition, hc]
  · have hdedup : (List.replicate 5 "a" ++ List.replicate 5 "b").dedup = ["a", "b"] := by
      decide
    have hmin : minLenOf (List.replicate 5 "a" ++ List.replicate 5 "b") = 1 := by decide
    have hmax : maxLenOf (List.replicate 5 "a" ++ List.replicate 5 "b") = 1 := by decide
    simp only [classifyStringPosition, hdedup, hmin, hmax]
    rw [if_neg]
    intro hcond
    have hr := hcond.2
    norm_num at hr
  · have hdedup : (List.replicate 10 "a").dedup = ["a"] := by decide
    have hmin : minLenOf (List.replicate 10 "a") = 1 := by decide
    have hmax : maxLenOf (List.replicate 10 "a") = 1 := by decide
    simp only [classifyStringPosition, hdedup, hmin, hmax]
    rw [if_pos]
    constructor
    · simp
    · norm_num

/-- Witness for enum_detector_classification: the ten-identical-samples
instance, with all three parameter hypotheses discharged concretely. -/
theorem enum_detector_classification_witness :
    (0 ≤ (1/10 : Rat)) ∧ ((1/10 : Rat) ≤ 1) ∧ (1 ≤ 1) ∧
    classifyStringPosition (some ⟨1/10, 1⟩) (List.replicate 10 "a") =
      .enum (List.replicate 10 "a").dedup (minLenOf (List.replicate 10 "a"))
        (maxLenOf (List.replicate 10 "a")) := by
  refine ⟨by norm_num, by norm_num, le_refl 1, ?_⟩
  refine (enum_detector_classification (1/10) 1 (List.replicate 10 "a")
    (by norm_num) (by norm_num) (le_refl 1)).1.mpr ⟨by simp, ?_⟩
  rw [show (List.replicate 10 "a").dedup = ["a"] from by decide]
  norm_num

/-- C4: import (parse_json_schema) always returns either a schema or a
descriptive error value — it never aborts within the core — and the
from_schema path of main exits (the error case of cliLoadSchema) exactly
from the returned error value, after it is returned. -/
theorem import_sole_fallible {Node : Type}
    (jsonParse : String → Except String JsonValue)
    (yamlParse : String → Except String Node)
    (toValue : Node → Except String JsonValue)
    (inferOne : JsonValue → SchemaState)
    (inferIter : List JsonValue → SchemaState)
    (linesOf : String → List String)
    (input : String) :
    (∀ j : JsonValue,
      (∃ s, parse_json_schema j = .ok s) ∨ (∃ e, parse_json_schema j = .error e)) ∧
    (∀ j, parseJsonOrYaml jsonParse yamlParse toValue input = .ok j →
      (∀ s, parse_json_schema j = .ok s →
        cliLoadSchema jsonParse yamlParse toValue inferOne inferIter linesOf true input =
          .ok s) ∧
      (∀ e, parse_json_schema j = .error e →
        cliLoadSchema jsonParse yamlParse toValue inferOne inferIter linesOf true input =
          .error ("Error parsing JSON Schema: " ++ e))) := by
  constructor
  · intro j
    cases hj : parse_json_schema j with
    | ok s => exact .inl ⟨s, rfl⟩
    | error e => exact .inr ⟨e, rfl⟩
  · intro j hj
    constructor
    · intro s hs
      simp [cliLoadSchema, hj, hs]
    · intro e he
      simp [cliLoadSchema, hj, he]

/-- Witness for import_sole_fallible: a parser returning the unconstrained
document, which imports as Indeterminate, and a parser returning a non-
object document, whose import error becomes the CLI exit message. -/
theorem import_sole_fallible_witness :
    cliLoadSchema (fun _ => .ok (.obj [])) (fun _ => .error "y")
      (fun (n : JsonValue) => .ok n) (fun _ => SchemaState.null) (fun _ => SchemaState.null)
      (fun _ => []) true "in" = .ok .indeterminate ∧
    cliLoadSchema (fun _ => .ok (.int 3)) (fun _ => .error "y")
      (fun (n : JsonValue) => .ok n) (fun _ => SchemaState.null) (fun _ => SchemaState.null)
      (fun _ => []) true "in" =
      .error ("Error parsing JSON Schema: " ++ "schema document must be an object") := by
  constructor
  · exact ((import_sole_fallible (fun _ => .ok (.obj [])) (fun _ => .error "y")
      (fun (n : JsonValue) => .ok n) (fun _ => SchemaState.null) (fun _ => SchemaState.null)
      (fun _ => []) "in").2 (.obj []) rfl).1 .indeterminate (by simp [parse_json_schema, lookupKey])
  · exact ((import_sole_fallible (fun _ => .ok (.int 3)) (fun _ => .error "y")
      (fun (n : JsonValue) => .ok n) (fun _ => SchemaState.null) (fun _ => SchemaState.null)
      (fun _ => []) "in").2 (.int 3) rfl).2 "schema document must be an object"
      (by simp [parse_json_schema])

theorem parseAllLines_ok_iff (p : String → Except String JsonValue)
    (lines : List String) (vs : List JsonValue) :
    parseAllLines p lines = .ok vs ↔ List.Forall₂ (fun l v => p l = .ok v) lines vs := by
  induction lines generalizing vs with
  | nil =>
    constructor
    · intro h
      simp [parseAllLines] at h
      subst h
      exact List.Forall₂.nil
    · intro h
      cases h
      rfl
  | cons l rest ih =>
    constructor
    · intro h
      rw [parseAllLines] at h
      cases hp : p l with
      | error e =>
        rw [hp] at h
        simp at h
      | ok v =>
        rw [hp] at h
        cases hrest : parseAllLines p rest with
        | error e =>
          rw [hrest] at h
          simp [Except.map] at h
        | ok ws =>
          rw [hrest] at h
          simp [Except.map] at h
          subst h
          exact List.Forall₂.cons hp ((ih ws).mp hrest)
    · intro h
      cases h with
      | cons hl hrest =>
        rw [parseAllLines]
        rw [hl, (ih _).mpr hrest]
        rfl

theorem parseAllLines_error_iff (p : String → Except String JsonValue)
    (lines : List String) :
    (∃ e, parseAllLines p lines = .error e) ↔ ∃ l ∈ lines, ∃ e, p l = .error e := by
  induction lines with
  | nil => simp [parseAllLines]
  | cons l rest ih =>
    constructor
    · rintro ⟨e, he⟩
      rw [parseAllLines] at he
      cases hp : p l with
      | error e0 =>
        exact ⟨l, List.mem_cons_self l rest, e0, hp⟩
      | ok v =>
        rw [hp] at he
        cases hrest : parseAllLines p rest with
        | ok ws =>
          rw [hrest] at he
          simp [Except.map] at he
        | error e1 =>
          obtain ⟨l2, hl2, he2⟩ := ih.mp ⟨e1, hrest⟩
          exact ⟨l2, List.mem_cons_of_mem l hl2, he2⟩
    · rintro ⟨l2, hl2, e2, he2⟩
      rcases List.mem_cons.mp hl2 with heq | hmem
      · subst heq
        exact ⟨e2, by rw [parseAllLines, he2]⟩
      · cases hp : p l with
        | error e0 => exact ⟨e0, by rw [parseAllLines, hp]⟩
        | ok v =>
          obtain ⟨e1, he1⟩ := ih.mpr ⟨l2, hmem, e2, he2⟩
          exact ⟨e1, by rw [parseAllLines, hp, he1]; rfl⟩

/-- C10: without from_schema, a single document that parses is inferred
directly and never split; only when whole-input parsing fails is the input
split into lines, each parsed individually (in order, yielding exactly the
per-line values) and folded through the iterator entry point; the first
line failure exits with the parse-error message; and the per-line phase
succeeds exactly when every line parses. -/
theorem inference_line_path {Node : Type}
    (jsonParse : String → Except String JsonValue)
    (yamlParse : String → Except String Node)
    (toValue : Node → Except String JsonValue)
    (inferOne : JsonValue → SchemaState)
    (inferIter : List JsonValue → SchemaState)
    (linesOf : String → List String)
    (input : String) :
    (∀ j, parseJsonOrYaml jsonParse yamlParse toValue input = .ok j →
      cliLoadSchema jsonParse yamlParse toValue inferOne inferIter linesOf false input =
        .ok (inferOne j)) ∧
    (∀ e, parseJsonOrYaml jsonParse yamlParse toValue input = .error e →
      (∀ vs, parseAllLines (parseJsonOrYaml jsonParse yamlParse toValue) (linesOf input) =
          .ok vs →
        cliLoadSchema jsonParse yamlParse toValue inferOne inferIter linesOf false input =
          .ok (inferIter vs)) ∧
      (∀ le, parseAllLines (parseJsonOrYaml jsonParse yamlParse toValue) (linesOf input) =
          .error le →
        cliLoadSchema jsonParse yamlParse toValue inferOne inferIter linesOf false input =
          .error ("Error parsing input; are you sure it is valid JSON or YAML? Error: " ++ le))) ∧
    (∀ (p : String → Except String JsonValue) lines vs,
      parseAllLines p lines = .ok vs ↔ List.Forall₂ (fun l v => p l = .ok v) lines vs) ∧
    (∀ (p : String → Except String JsonValue) lines,
      (∃ e, parseAllLines p lines = .error e) ↔ ∃ l ∈ lines, ∃ e, p l = .error e) := by
  refine ⟨?_, ?_, parseAllLines_ok_iff, parseAllLines_error_iff⟩
  · intro j hj
    simp [cliLoadSchema, hj]
  · intro e he
    constructor
    · intro vs hvs
      simp [cliLoadSchema, he, hvs]
    · intro le hle
      simp [cliLoadSchema, he, hle]

/-- Witness for inference_line_path: an input whose whole-document parse
fails and whose two lines parse individually, folding through the iterator
entry point. -/
theorem inference_line_path_witness :
    cliLoadSchema (fun s => if s = "l1" then .ok (.int 1) else if s = "l2" then .ok (.int 2)
        else .error "j") (fun _ => .error "y") (fun (n : JsonValue) => .ok n)
      (fun _ => SchemaState.null) (fun vs => .array vs.length vs.length .boolean)
      (fun _ => ["l1", "l2"]) false "l1\nl2" = .ok (.array 2 2 .boolean) := by
  have h := (inference_line_path (fun s => if s = "l1" then .ok (.int 1)
      else if s = "l2" then .ok (.int 2) else .error "j") (fun _ => .error "y")
      (fun (n : JsonValue) => .ok n) (fun _ => SchemaState.null)
      (fun vs => .array vs.length vs.length .boolean)
      (fun _ => ["l1", "l2"]) "l1\nl2").2.1
      ("JSON error: " ++ "j" ++ ". YAML error: " ++ "y") (by rfl)
  exact h.1 [.int 1, .int 2] (by rfl)

theorem randomString_length (len : Nat) (g : Nat → Nat) :
    (randomString len g).length = len := by
  show ((List.range len).map _).length = len
  simp

theorem produceList_length (sch : SchemaState) (n : Nat) (g : Nat → Nat) :
    (produceList sch n g).length = n := by
  induction n generalizing g with
  | zero => simp [produceList]
  | succ m ih => simp [produceList, ih]

theorem getD_mem {l : List String} {i : Nat} {d : String} (h : i < l.length) :
    l.getD i d ∈ l := by
  induction l generalizing i with
  | nil => simp at h
  | cons a t ih =>
    cases i with
    | zero => simp [List.getD]
    | succ j =>
      rw [List.getD_cons_succ]
      exact List.mem_cons_of_mem a (ih (by simpa using h))

theorem conformsB_nullable_of (v : JsonValue) (inner : SchemaState)
    (h : conformsB v inner = true) : conformsB v (.nullable inner) = true := by
  cases v <;> simp [conformsB, h]

theorem wf_nullable_inner {inner : SchemaState}
    (h : (SchemaState.nullable inner).wf = true) : inner.wf = true := by
  cases inner <;> simp_all [SchemaState.wf]

mutual

theorem produceConformsAux (s : SchemaState) (h : s.wf = true) (g : Nat → Nat) :
    conformsB (produceOne s g) s = true := by
  cases s with
  | null => simp [produceOne, conformsB]
  | boolean => simp [produceOne, conformsB]
  | integer lo hi =>
    simp [SchemaState.wf] at h
    simp only [produceOne, conformsB, decide_eq_true_eq]
    have hm : g 0 % ((hi - lo).toNat + 1) < (hi - lo).toNat + 1 :=
      Nat.mod_lt _ (Nat.succ_pos _)
    omega
  | float lo hi =>
    simp [SchemaState.wf] at h
    simp only [produceOne, conformsB, decide_eq_true_eq]
    have hm : g 0 % 1001 ≤ 1000 := by
      have := Nat.mod_lt (g 0) (show 0 < 1001 by norm_num)
      omega
    have hm0 : (0:Rat) ≤ ((g 0 % 1001 : Nat) : Rat) := Nat.cast_nonneg _
    have hm1 : ((g 0 % 1001 : Nat) : Rat) ≤ 1000 := by exact_mod_cast hm
    have hd : (0:Rat) ≤ hi - lo := by linarith
    constructor
    · nlinarith
    · nlinarith
  | string lo hi =>
    simp [SchemaState.wf] at h
    simp only [produceOne, conformsB, randomString_length, decide_eq_true_eq]
    have hm : g 0 % (hi - lo + 1) < hi - lo + 1 := Nat.mod_lt _ (Nat.succ_pos _)
    omega
  | enum vs lo hi =>
    simp [SchemaState.wf] at h
    simp only [produceOne, conformsB]
    have hlen : 0 < vs.length := List.length_pos.mpr h.1
    have hm : g 0 % vs.length < vs.length := Nat.mod_lt _ hlen
    exact List.elem_eq_true_of_mem (getD_mem hm)
  | array lo hi sch =>
    simp [SchemaState.wf] at h
    simp only [produceOne, conformsB, produceList_length, Bool.and_eq_true,
      decide_eq_true_eq]
    have hm : g 0 % (hi - lo + 1) < hi - lo + 1 := Nat.mod_lt _ (Nat.succ_pos _)
    exact ⟨⟨by omega, by omega⟩, produceConformsListAux sch h.2 _ (gLeft g)⟩
  | object fields =>
    simp [SchemaState.wf] at h
    simp only [produceOne, conformsB]
    exact produceConformsFieldsAux fields h.2 g
  | nullable inner =>
    have hinner : inner.wf = true := wf_nullable_inner h
    rw [produceOne]
    by_cases hg : (g 0 % 2 == 0) = true
    · rw [if_pos hg]
      simp [conformsB]
    · rw [if_neg hg]
      exact conformsB_nullable_of _ _ (produceConformsAux inner hinner (gLeft g))
  | indeterminate => simp [produceOne, conformsB]
termination_by (sizeOf s, 0)

theorem produceConformsListAux (sch : SchemaState) (h : sch.wf = true) (n : Nat)
    (g : Nat → Nat) : conformsList (produceList sch n g) sch = true := by
  cases n with
  | zero => simp [produceList, conformsList]
  | succ m =>
    simp only [produceList, conformsList, Bool.and_eq_true]
    exact ⟨produceConformsAux sch h (gLeft g), produceConformsListAux sch h m (gRight g)⟩
termination_by (sizeOf sch, n + 1)

theorem produceConformsFieldsAux :
    ∀ (fields : List (String × SchemaState × Bool)), wfFields fields = true →
      ∀ g : Nat → Nat, conformsFields (produceFields fields g) fields = true
  | [], _, g => by simp [produceFields, conformsFields]
  | (name, sch, req) :: rest, h, g => by
    rw [wfFields, Bool.and_eq_true] at h
    simp only [produceFields, conformsFields, beq_self_eq_true, Bool.true_and,
      Bool.and_eq_true]
    exact ⟨produceConformsAux sch h.1 (gLeft g),
      produceConformsFieldsAux rest h.2 (gRight g)⟩
termination_by fields _ _ => (sizeOf fields, 0)
decreasing_by
  all_goals apply Prod.Lex.left
  all_goals simp
  all_goals omega

end

theorem parseStringList_map_str (vs : List String) :
    parseStringList (vs.map JsonValue.str) = some vs := by
  induction vs with
  | nil => simp [parseStringList]
  | cons v rest ih => simp [parseStringList, ih]

theorem lookupKey_cons_self (k : String) (v : JsonValue)
    (rest : List (String × JsonValue)) : lookupKey ((k, v) :: rest) k = some v := by
  simp [lookupKey, List.find?]

theorem toDoc_of_exportParts {s : SchemaState} {t : String}
    {rest : List (String × JsonValue)} (hx : exportParts s = some (t, rest)) :
    toJsonSchemaDocument s = .obj (("type", .str t) :: rest) := by
  cases s <;> simp_all [toJsonSchemaDocument, exportParts]

theorem requiredNames_contains {fields : List (String × SchemaState × Bool)}
    (hn : (fields.map (fun f => f.1)).Nodup) {f : String × SchemaState × Bool}
    (hf : f ∈ fields) : (requiredNames fields).contains f.1 = f.2.2 := by
  cases hreq : f.2.2 with
  | true =>
    apply List.elem_eq_true_of_mem
    exact List.mem_map.mpr ⟨f, List.mem_filter.mpr ⟨hf, hreq⟩, rfl⟩
  | false =>
    cases hc : (requiredNames fields).contains f.1 with
    | false => rfl
    | true =>
      exfalso
      have hmem := List.mem_of_elem_eq_true hc
      obtain ⟨f2, hf2, hf21⟩ := List.mem_map.mp hmem
      have hf2mem := List.mem_filter.mp hf2
      have : f2 = f := List.inj_on_of_nodup_map hn hf2mem.1 hf hf21
      subst this
      rw [hreq] at hf2mem
      exact Bool.false_ne_true hf2mem.2

mutual

theorem roundtripAux (s : SchemaState) (h : s.wf = true) :
    parse_json_schema (toJsonSchemaDocument s) = .ok s := by
  cases hx : exportParts s with
  | some pr =>
    exact roundtripOfParts s h pr.1 pr.2 (by rw [hx])
  | none =>
    cases s with
    | nullable inner =>
      have hinner := wf_nullable_inner h
      cases hxi : exportParts inner with
      | none =>
        exfalso
        cases inner <;> simp_all [SchemaState.wf, exportParts]
      | some pr =>
        obtain ⟨t, rest⟩ := pr
        simp only [toJsonSchemaDocument, hxi]
        simp [parse_json_schema, lookupKey_cons_self,
          roundtripWithTypeAux inner hinner t rest hxi (.arr [.str t, .str "null"]),
          Except.map]
    | indeterminate =>
      simp [toJsonSchemaDocument, exportParts, parse_json_schema, lookupKey]
    | null => simp [exportParts] at hx
    | boolean => simp [exportParts] at hx
    | integer lo hi => simp [exportParts] at hx
    | float lo hi => simp [exportParts] at hx
    | string lo hi => simp [exportParts] at hx
    | enum vs lo hi => simp [exportParts] at hx
    | array lo hi sch => simp [exportParts] at hx
    | object fields => simp [exportParts] at hx
termination_by (sizeOf s, 2)

theorem roundtripOfParts (s : SchemaState) (h : s.wf = true) (t : String)
    (rest : List (String × JsonValue)) (hx : exportParts s = some (t, rest)) :
    parse_json_schema (toJsonSchemaDocument s) = .ok s := by
  rw [toDoc_of_exportParts hx]
  simp only [parse_json_schema, lookupKey_cons_self]
  exact roundtripWithTypeAux s h t rest hx (.str t)
termination_by (sizeOf s, 1)

theorem roundtripWithTypeAux (s : SchemaState) (h : s.wf = true) (t : String)
    (rest : List (String × JsonValue)) (hx : exportParts s = some (t, rest))
    (hd : JsonValue) : parseWithType t (("type", hd) :: rest) = .ok s := by
  cases s with
  | nullable inner => simp [exportParts] at hx
  | indeterminate => simp [exportParts] at hx
  | null =>
    simp only [exportParts, Option.some.injEq, Prod.mk.injEq] at hx
    obtain ⟨ht, hrest⟩ := hx
    subst ht
    subst hrest
    simp [parseWithType]
  | boolean =>
    simp only [exportParts, Option.some.injEq, Prod.mk.injEq] at hx
    obtain ⟨ht, hrest⟩ := hx
    subst ht
    subst hrest
    simp [parseWithType]
  | integer lo hi =>
    simp only [exportParts, Option.some.injEq, Prod.mk.injEq] at hx
    obtain ⟨ht, hrest⟩ := hx
    subst ht
    subst hrest
    simp [SchemaState.wf] at h
    simp [parseWithType, lookupKey, List.find?, h]
  | float lo hi =>
    simp only [exportParts, Option.some.injEq, Prod.mk.injEq] at hx
    obtain ⟨ht, hrest⟩ := hx
    subst ht
    subst hrest
    simp [SchemaState.wf] at h
    simp [parseWithType, lookupKey, List.find?, h]
  | string lo hi =>
    simp only [exportParts, Option.some.injEq, Prod.mk.injEq] at hx
    obtain ⟨ht, hrest⟩ := hx
    subst ht
    subst hrest
    simp [SchemaState.wf] at h
    have h1 : (lo : Int) ≤ (hi : Int) := by exact_mod_cast h
    simp [parseWithType, lookupKey, List.find?, h1]
  | enum vs lo hi =>
    simp only [exportParts, Option.some.injEq, Prod.mk.injEq] at hx
    obtain ⟨ht, hrest⟩ := hx
    subst ht
    subst hrest
    simp [SchemaState.wf] at h
    have h1 : (lo : Int) ≤ (hi : Int) := by exact_mod_cast h.2
    simp [parseWithType, lookupKey, List.find?, h1, parseStringList_map_str, h.1]
  | array lo hi sch =>
    simp only [exportParts, Option.some.injEq, Prod.mk.injEq] at hx
    obtain ⟨ht, hrest⟩ := hx
    subst ht
    subst hrest
    simp [SchemaState.wf] at h
    have h1 : (lo : Int) ≤ (hi : Int) := by exact_mod_cast h.1
    simp [parseWithType, lookupKey, List.find?, h1, roundtripAux sch h.2]
  | object fields =>
    simp only [exportParts, Option.some.injEq, Prod.mk.injEq] at hx
    obtain ⟨ht, hrest⟩ := hx
    subst ht
    subst hrest
    simp [SchemaState.wf] at h
    have hflag : ∀ f ∈ fields, (requiredNames fields).contains f.1 = f.2.2 :=
      fun f hf => requiredNames_contains h.1 hf
    simp [parseWithType, lookupKey, List.find?, parseStringList_map_str,
      roundtripFieldsAux fields h.2 (requiredNames fields) hflag, Except.map]
termination_by (sizeOf s, 0)

theorem roundtripFieldsAux :
    ∀ (fields : List (String × SchemaState × Bool)), wfFields fields = true →
      ∀ (reqNames : List String),
        (∀ f ∈ fields, reqNames.contains f.1 = f.2.2) →
        parseFields (exportProps fields) reqNames = .ok fields
  | [], _, reqNames, _ => by simp [exportProps, parseFields]
  | (name, sch, req) :: rest, hw, reqNames, hflag => by
    rw [wfFields, Bool.and_eq_true] at hw
    have hflag0 : reqNames.contains name = req :=
      hflag (name, sch, req) (List.mem_cons_self _ _)
    simp only [exportProps, parseFields, roundtripAux sch hw.1,
      roundtripFieldsAux rest hw.2 reqNames
        (fun f hf => hflag f (List.mem_cons_of_mem _ hf)), Except.map]
    rw [hflag0]
termination_by fields _ _ _ => (sizeOf fields, 0)
decreasing_by
  all_goals apply Prod.Lex.left
  all_goals simp
  all_goals omega

end

/-- C6: exporting a structurally valid Schema Model to a schema document
and importing that document back reproduces the model exactly — in
particular its numeric bounds, required-field sets, and enum value sets —
so the round trip is lossless within the supported keyword subset. -/
theorem export_import_roundtrip (s : SchemaState) (h : s.wf = true) :
    parse_json_schema (toJsonSchemaDocument s) = .ok s :=
  roundtripAux s h

/-- Witness for export_import_roundtrip at a concrete schema exercising
object, required flags, numeric bounds, enum, array and nullable nodes. -/
theorem export_import_roundtrip_witness :
    (SchemaState.wf (.object [("id", .integer 1 9, true),
      ("score", .float 1 2, false),
      ("tag", .enum ["x", "y"] 1 1, true),
      ("items", .array 0 4 (.nullable (.string 2 5)), false)]) = true) ∧
    parse_json_schema (toJsonSchemaDocument (.object [("id", .integer 1 9, true),
      ("score", .float 1 2, false),
      ("tag", .enum ["x", "y"] 1 1, true),
      ("items", .array 0 4 (.nullable (.string 2 5)), false)])) =
      .ok (.object [("id", .integer 1 9, true),
        ("score", .float 1 2, false),
        ("tag", .enum ["x", "y"] 1 1, true),
        ("items", .array 0 4 (.nullable (.string 2 5)), false)]) :=
  ⟨by decide, export_import_roundtrip _ (by decide)⟩

/-- C7: every value produced by produce_one from a structurally valid
Schema Model conforms to it — numeric values within bounds, string
lengths within the length bounds, array lengths within the length bounds
with conforming elements, enum values members of the observed set — for
every draw stream. -/
theorem produce_one_conforms (s : SchemaState) (h : s.wf = true) (g : Nat → Nat) :
    conformsB (produceOne s g) s = true :=
  produceConformsAux s h g

/-- Witness for produce_one_conforms at a concrete object schema with
nested array, enum, nullable and numeric positions. -/
theorem produce_one_conforms_witness :
    (SchemaState.wf (.object [("n", .integer 1 5, true),
      ("tags", .array 1 3 (.enum ["x", "y"] 1 1), false),
      ("note", .nullable (.string 2 4), true)]) = true) ∧
    conformsB
      (produceOne (.object [("n", .integer 1 5, true),
        ("tags", .array 1 3 (.enum ["x", "y"] 1 1), false),
        ("note", .nullable (.string 2 4), true)]) (fun k => k + 7))
      (.object [("n", .integer 1 5, true),
        ("tags", .array 1 3 (.enum ["x", "y"] 1 1), false),
        ("note", .nullable (.string 2 4), true)]) = true :=
  ⟨by decide, produce_one_conforms _ (by decide) (fun k => k + 7)⟩
